import Mathlib

/-
  Verification development for the eureka-js-client repository.

  Shallow embedding of the registry cache, the delta reconciliation
  operations, the cluster resolvers and the request pipeline, translated
  from src/src/EurekaClient.js, src/src/ConfigClusterResolver.js,
  src/src/DnsClusterResolver.js and src/deltaUtils (src/unnamed/part_008).

  JavaScript objects used as string-keyed maps are modelled as association
  lists in insertion order (`Slots`): setting an existing key updates it in
  place, setting a fresh key appends it, matching JS object semantics.
-/

namespace EurekaJs

/-- An instance record, with the fields the cache logic reads.
`port` models the numeric `port.$` field of the wire format. -/
structure Inst where
  hostName : String
  port : Nat
  app : String
  vipAddress : String
  status : String
  actionType : String
  deriving DecidableEq, Repr

/-- deltaUtils.findInstance: `a => b => a.hostName === b.hostName && a.port.$ === b.port.$`. -/
def findInstance (a b : Inst) : Bool :=
  a.hostName == b.hostName && a.port == b.port

/-- A JS object holding lists of instances, in key-insertion order. -/
abbrev Slots := List (String × List Inst)

/-- `m[k]` on a JS object: `none` models `undefined`. -/
def getSlot (m : Slots) (k : String) : Option (List Inst) :=
  match m with
  | [] => none
  | (k', v) :: rest => if k' == k then some v else getSlot rest k

/-- `m[k] = v` on a JS object: update in place, or append a fresh key. -/
def setSlot (m : Slots) (k : String) (v : List Inst) : Slots :=
  match m with
  | [] => [(k, v)]
  | (k', v') :: rest => if k' == k then (k, v) :: rest else (k', v') :: setSlot rest k v

/-- The key list of a JS object, in insertion order. -/
def slotKeys (m : Slots) : List String := m.map Prod.fst

/-- The client cache: `{ app: {}, vip: {} }`. -/
structure Cache where
  app : Slots
  vip : Slots
  deriving DecidableEq, Repr

def emptyCache : Cache := ⟨[], []⟩

/-- lodash `findIndex(list, findInstance(inst))`, with `none` for -1. -/
def findIdx (l : List Inst) (i : Inst) : Option Nat :=
  l.findIdx? (fun b => findInstance i b)

/-- `findIndex(m[k], findInstance(inst))`; lodash returns -1 on `undefined`. -/
def slotFindIdx (m : Slots) (k : String) (i : Inst) : Option Nat :=
  match getSlot m k with
  | none => none
  | some l => findIdx l i

/-- EurekaClient.validateInstance:
`!this.config.eureka.filterUpInstances || instance.status === 'UP'`. -/
def validateInstance (filterUpInstances : Bool) (i : Inst) : Bool :=
  !filterUpInstances || i.status == "UP"

/-- JS `String.prototype.toUpperCase` on the character list (kernel-reducible,
unlike `String.toUpper`, and identical on it for these ASCII inputs). -/
def jsToUpper (s : String) : String :=
  ⟨s.data.map Char.toUpper⟩

/-- Helper for `split(',')`: walk the characters, cutting at every comma. -/
def splitCommaAux : List Char → List Char → List String
  | [], cur => [⟨cur.reverse⟩]
  | c :: rest, cur =>
      if c == ',' then ⟨cur.reverse⟩ :: splitCommaAux rest []
      else splitCommaAux rest (c :: cur)

/-- EurekaClient.splitVipAddress on a string vipAddress: `vipAddress.split(',')`
(so `""` yields `[""]`, and separators cut exactly). The non-string branch
returning `[]` is outside this model: `vipAddress` is always a string here. -/
def splitVipAddress (vipAddress : String) : List String :=
  splitCommaAux vipAddress.data []

/-- `l.splice(n, 1, i)`: replace the element at `n` by `i`. -/
def spliceReplace (l : List Inst) (n : Nat) (i : Inst) : List Inst :=
  l.take n ++ i :: l.drop (n + 1)

/-- `l.splice(n, 1)`: remove the element at `n`. -/
def spliceRemove (l : List Inst) (n : Nat) : List Inst :=
  l.take n ++ l.drop (n + 1)

/-- The body of the `vipAddresses.forEach` loop of EurekaClient.addInstance:
skip the slot when a (hostName, port) match is already present, else create
the slot if missing and push the instance. -/
def addVipToken (c : Cache) (i : Inst) (v : String) : Cache :=
  if (slotFindIdx c.vip v i).isSome then c
  else
    let cur := (getSlot c.vip v).getD []
    { c with vip := setSlot c.vip v (cur ++ [i]) }

/-- The trailing app-index block of EurekaClient.addInstance:
`if (!cache.app[appName]) cache.app[appName] = [];` then push the instance
unless a (hostName, port) match is already present. -/
def addAppSlot (c : Cache) (i : Inst) : Cache :=
  let appName := jsToUpper i.app
  let c2 := if (getSlot c.app appName).isNone
    then { c with app := setSlot c.app appName [] } else c
  if (slotFindIdx c2.app appName i).isSome then c2
  else { c2 with app := setSlot c2.app appName (((getSlot c2.app appName).getD []) ++ [i]) }

/-- EurekaClient.addInstance: skip a non-UP instance when filtering, else
process every comma-split vip token and then the app slot. -/
def addInstance (filterUp : Bool) (c : Cache) (i : Inst) : Cache :=
  if !validateInstance filterUp i then c
  else
    addAppSlot ((splitVipAddress i.vipAddress).foldl (fun c v => addVipToken c i v) c) i

/-- The body of the `vipAddresses.forEach` loop of EurekaClient.modifyInstance:
replace the match in place, else fall back to addInstance. -/
def modifyVipToken (filterUp : Bool) (c : Cache) (i : Inst) (v : String) : Cache :=
  match slotFindIdx c.vip v i with
  | some n => { c with vip := setSlot c.vip v (spliceReplace ((getSlot c.vip v).getD []) n i) }
  | none => addInstance filterUp c i

/-- EurekaClient.modifyInstance. In the app-index branch the source reads
`cache.app[appName].splice(cache.vip[instance.vipAddress], 1, instance)`:
the first argument is an array of plain objects (or `undefined`), which
ToIntegerOrInfinity coerces to 0 (`"[object Object]"`/`undefined` → NaN → 0,
`""` → 0), so the splice always acts at index 0, not at the found index. -/
def modifyInstance (filterUp : Bool) (c : Cache) (i : Inst) : Cache :=
  let appName := jsToUpper i.app
  let c1 := (splitVipAddress i.vipAddress).foldl (fun c v => modifyVipToken filterUp c i v) c
  match slotFindIdx c1.app appName i with
  | some _ =>
      { c1 with app := setSlot c1.app appName (spliceReplace ((getSlot c1.app appName).getD []) 0 i) }
  | none => addInstance filterUp c1 i

/-- EurekaClient.deleteInstance. The app-index branch has the same coerced
splice argument as modifyInstance: `splice(cache.vip[instance.vipAddress], 1)`
removes the element at index 0, not at the found index. -/
def deleteInstance (c : Cache) (i : Inst) : Cache :=
  let appName := jsToUpper i.app
  let c1 := (splitVipAddress i.vipAddress).foldl (fun c v =>
    match slotFindIdx c.vip v i with
    | some n => { c with vip := setSlot c.vip v (spliceRemove ((getSlot c.vip v).getD []) n) }
    | none => c) c
  match slotFindIdx c1.app appName i with
  | some _ => { c1 with app := setSlot c1.app appName (spliceRemove ((getSlot c1.app appName).getD []) 0) }
  | none => c1

/-- A wire-format value that is either a bare object or an array of objects
(`app.instance` and `applications.application` both come in the two shapes). -/
inductive OneOrMany (α : Type) where
  | one (a : α)
  | many (l : List α)
  deriving DecidableEq, Repr

/-- deltaUtils.arrayOrObj: wrap a bare object in a one-element array. -/
def arrayOrObj {α : Type} : OneOrMany α → List α
  | .one a => [a]
  | .many l => l

/-- An app entry of the wire format: the cache logic only reads `instance`. -/
structure AppEntry where
  inst : OneOrMany Inst
  deriving DecidableEq, Repr

/-- deltaUtils.normalizeDelta: `arrayOrObj(appDelta).map(app => { app.instance =
arrayOrObj(app.instance); return app; })`. -/
def normalizeDelta (appDelta : OneOrMany AppEntry) : List (List Inst) :=
  (arrayOrObj appDelta).map (fun a => arrayOrObj a.inst)

/-- EurekaClient.handleDelta: dispatch each instance on its actionType;
an unknown actionType is only logged. -/
def handleDelta (filterUp : Bool) (c : Cache) (appDelta : OneOrMany AppEntry) : Cache :=
  (normalizeDelta appDelta).foldl (fun c insts =>
    insts.foldl (fun c i =>
      match i.actionType with
      | "ADDED" => addInstance filterUp c i
      | "MODIFIED" => modifyInstance filterUp c i
      | "DELETED" => deleteInstance c i
      | _ => c) c) c

/-- EurekaClient.transformApp. `app.instance.length` is truthy exactly for a
nonempty array; a bare object falls into the single-instance branch.
(A degenerate empty `instance` array, which the source would treat as a bare
malformed object, is left as a no-op here; no claim touches it.) -/
def transformApp (filterUp : Bool) (app : AppEntry) (c : Cache) : Cache :=
  match app.inst with
  | .many l =>
      if l.length != 0 then
        (l.filter (validateInstance filterUp)).foldl (addInstance filterUp) c
      else c
  | .one i => if validateInstance filterUp i then addInstance filterUp c i else c

/-- The registry payload as transformRegistry reads it: `none` at the outer
level models a falsy registry argument, `application = none` models a falsy
`registry.applications.application` field. -/
structure Registry where
  application : Option (OneOrMany AppEntry)
  deriving DecidableEq, Repr

/-- EurekaClient.transformRegistry: on a falsy registry only warn; on a falsy
`applications.application` return; otherwise build a fresh cache from an empty
one and replace the old cache with it wholesale. -/
def transformRegistry (filterUp : Bool) (registry : Option Registry) (c : Cache) : Cache :=
  match registry with
  | none => c
  | some reg =>
    match reg.application with
    | none => c
    | some apps =>
      match apps with
      | .many l => l.foldl (fun acc a => transformApp filterUp a acc) (emptyCache)
      | .one a => transformApp filterUp a emptyCache

/-! ## ConfigClusterResolver -/

/-- Generic JS-object lookup for string-keyed maps of URL lists. -/
def lookupKey {α : Type} (m : List (String × α)) (k : String) : Option α :=
  match m with
  | [] => none
  | (k', v) :: rest => if k' == k then some v else lookupKey rest k

/-- The configuration fields ConfigClusterResolver reads. `instanceZone`
models `config.instance.dataCenterInfo.metadata['availability-zone']`
(`none` when any link of that chain is absent). -/
structure ResolverConfig where
  host : String
  port : Nat
  servicePath : String
  ssl : Bool
  serviceUrls : Option (List (String × List String))
  preferSameZone : Bool
  ec2Region : Option String
  availabilityZones : Option (List (String × List String))
  instanceZone : Option String
  deriving DecidableEq, Repr

/-- ConfigClusterResolver.getAvailabilityZones: the region's zone list when
`ec2Region` is truthy and `availabilityZones[ec2Region]` is present (a JS
array, even empty, is truthy), else the single implicit zone. -/
def getAvailabilityZones (cfg : ResolverConfig) : List String :=
  match cfg.ec2Region with
  | some r =>
      if r != "" then
        match cfg.availabilityZones with
        | some az =>
            match lookupKey az r with
            | some zs => zs
            | none => ["default"]
        | none => ["default"]
      else ["default"]
  | none => ["default"]

/-- `preferSameZone && instanceZone && instanceZone === zone` (an empty string
is falsy in JS). -/
def sameZone (cfg : ResolverConfig) (zone : String) : Bool :=
  cfg.preferSameZone &&
    (match cfg.instanceZone with
     | some z => z != "" && z == zone
     | none => false)

/-- The default single URL `protocol://host:port/servicePath`. -/
def defaultUrl (cfg : ResolverConfig) : String :=
  (if cfg.ssl then "https" else "http") ++ "://" ++ cfg.host ++ ":" ++
    toString cfg.port ++ cfg.servicePath

/-- ConfigClusterResolver.buildServiceUrls. Note the source's same-zone branch
`urls.unshift(...serviceUrls[zone])` has no `else`: the following
`urls.push(...serviceUrls[zone])` runs unconditionally, so a matching zone's
URLs are both prepended and appended. -/
def buildServiceUrls (cfg : ResolverConfig) : List String :=
  let zones := getAvailabilityZones cfg
  let urls :=
    match cfg.serviceUrls with
    | some su =>
        zones.foldl (fun urls zone =>
          match lookupKey su zone with
          | some zoneUrls =>
              let urls := if sameZone cfg zone then zoneUrls ++ urls else urls
              urls ++ zoneUrls
          | none => urls) []
    | none => []
  if urls.isEmpty then [defaultUrl cfg] else urls

/-- ConfigClusterResolver.resolveEurekaUrl over the resolver's mutable
`serviceUrls` ring: rotate head to tail when retrying on a multi-entry ring,
then return the new ring together with its head (`serviceUrls[0]`). -/
def resolveEurekaUrl (serviceUrls : List String) (retryAttempt : Nat) :
    List String × Option String :=
  let serviceUrls :=
    if serviceUrls.length > 1 && retryAttempt > 0 then
      match serviceUrls with
      | [] => []
      | x :: xs => xs ++ [x]
    else serviceUrls
  (serviceUrls, serviceUrls.head?)

/-! ## DnsClusterResolver -/

/-- The configuration fields DnsClusterResolver.resolveClusterHosts reads. -/
structure DnsConfig where
  ec2Region : String
  host : String
  preferSameZone : Bool
  availabilityZone : Option String
  deriving DecidableEq, Repr

/-- DnsClusterResolver.resolveZoneHosts: a failed TXT lookup is wrapped in an
error; a successful one is flattened and cleared of falsy (empty) strings.
`lookupTxt` stands for `dns.resolveTxt`, which yields a list of records, each
a list of strings. -/
def resolveZoneHosts (lookupTxt : String → Except String (List (List String)))
    (zoneRecord : String) : Except String (List String) :=
  match lookupTxt zoneRecord with
  | .error e => .error ("Error resolving cluster zone " ++ zoneRecord ++ ": [" ++ e ++ "]")
  | .ok results => .ok (results.flatten.filter (fun v => v != ""))

/-- `zone.lastIndexOf(availabilityZone, 0) === 0` guarded by
`preferSameZone && availabilityZone`: the zone record starts with the
instance's own availability zone. -/
def myZoneRecord (cfg : DnsConfig) (zone : String) : Bool :=
  cfg.preferSameZone &&
    (match cfg.availabilityZone with
     | some z => z != "" && z.data.isPrefixOf zone.data
     | none => false)

/-- First-occurrence key dedup: `dnsTasks` is a JS object keyed by zone
record, so a duplicated record registers a single task. -/
def dedupKeys (l : List String) : List String :=
  l.foldl (fun acc x => if acc.contains x then acc else acc ++ [x]) []

/-- DnsClusterResolver.resolveClusterHosts. The per-zone TXT lookups run
concurrently under `async.parallel`; any task failure fails the fan-in (the
error delivered is a failing task's — taken in list order here), and only
when every task succeeded are the hosts partitioned into same-zone and other
hosts (in zone-record order), each group shuffled, and concatenated. The
lodash shuffle is abstracted as the `shuffle` parameter. -/
def resolveClusterHosts (shuffle : List String → List String)
    (cfg : DnsConfig) (lookupTxt : String → Except String (List (List String))) :
    Except String (List String) :=
  let dnsHost := "txt." ++ cfg.ec2Region ++ "." ++ cfg.host
  match lookupTxt dnsHost with
  | .error e =>
      .error ("Error resolving eureka cluster for region [" ++ cfg.ec2Region ++
        "] using DNS: [" ++ e ++ "]")
  | .ok addresses =>
    let zoneRecords := dedupKeys addresses.flatten
    match zoneRecords.findSome? (fun z =>
        match resolveZoneHosts lookupTxt ("txt." ++ z) with
        | .error e => some e
        | .ok _ => none) with
    | some e => .error e
    | none =>
      let results := zoneRecords.map (fun z =>
        (z, (resolveZoneHosts lookupTxt ("txt." ++ z)).toOption.getD []))
      let myZoneHosts := ((results.filter (fun r => myZoneRecord cfg r.1)).map Prod.snd).flatten
      let hosts := ((results.filter (fun r => !myZoneRecord cfg r.1)).map Prod.snd).flatten
      let combinedHosts := shuffle myZoneHosts ++ shuffle hosts
      if combinedHosts.isEmpty then
        .error ("Unable to locate any Eureka hosts in any zone via DNS @ " ++ dnsHost)
      else .ok combinedHosts

/-! ## The request pipeline (EurekaClient.eurekaRequest) -/

/-- The request options the pipeline inspects: the resolved base URL. -/
structure ReqOpts where
  prefixUrl : String
  deriving DecidableEq, Repr

/-- What the user middleware passes to its continuation: a (possibly new)
options object, or any non-object value. -/
inductive MWResult where
  | obj (o : ReqOpts)
  | nonObject
  deriving DecidableEq, Repr

/-- The outcome of one HTTP execution (`got[method](uri, requestOpts, cb)`). -/
inductive HttpOutcome where
  | transportError (msg : String)
  | response (statusCode : Nat) (body : String)
  deriving DecidableEq, Repr

/-- How one eurekaRequest call ends: the user callback invoked with
`(error, response, body)` (the response carried as its status code), or a
TypeError thrown by the final handler reading `requestOpts.prefixUrl` when
`requestOpts` is `undefined` (stage-1/stage-2 failures reach the handler
with only the error argument). -/
inductive ReqOutcome where
  | callback (error : Option String) (statusCode : Option Nat) (body : Option String)
  | typeError
  deriving DecidableEq, Repr

/-- Observable run of the pipeline: its outcome, how many HTTP calls were
executed, and how many attempts (1 + retries) ran. -/
structure ReqStats where
  outcome : ReqOutcome
  httpCalls : Nat
  attempts : Nat
  deriving DecidableEq, Repr

/-- `response && response.statusCode && String(response.statusCode)[0] === '5'`. -/
def responseInvalid (statusCode : Option Nat) : Bool :=
  match statusCode with
  | some sc => sc != 0 && (toString sc).front == '5'
  | none => false

/-- EurekaClient.eurekaRequest. The three waterfall stages: resolve a base
URL for the current retry attempt, run the user middleware, execute the HTTP
call; the final handler retries (after a delay, with `retryAttempt + 1`) when
an error occurred or a 5xx response arrived and attempts remain, and
otherwise invokes the caller's callback. `resolveUrl` abstracts the stateful
cluster resolver as a function of the attempt number, and `http` the world's
response to the attempt. -/
def eurekaRequest (maxRetries : Nat) (resolveUrl : Nat → Except String String)
    (middleware : ReqOpts → MWResult) (http : Nat → HttpOutcome)
    (retryAttempt : Nat) : ReqStats :=
  let step : Option String × Option Nat × Option String × Option ReqOpts × Nat :=
    match resolveUrl retryAttempt with
    | .error e => (some e, none, none, none, 0)
    | .ok url =>
      match middleware ⟨url⟩ with
      | .nonObject => (some "requestMiddleware did not return an object", none, none, none, 0)
      | .obj newOpts =>
        match http retryAttempt with
        | .transportError msg => (some msg, none, none, some newOpts, 1)
        | .response sc body => (none, some sc, some body, some newOpts, 1)
  match step with
  | (error, statusCode, body, requestOpts, httpCalls) =>
    if h : ((error.isSome || responseInvalid statusCode) && decide (retryAttempt < maxRetries)) = true then
      match requestOpts with
      | none => ⟨.typeError, httpCalls, 1⟩
      | some _ =>
        let rest := eurekaRequest maxRetries resolveUrl middleware http (retryAttempt + 1)
        ⟨rest.outcome, httpCalls + rest.httpCalls, 1 + rest.attempts⟩
    else ⟨.callback error statusCode body, httpCalls, 1⟩
termination_by maxRetries - retryAttempt
decreasing_by
  simp only [Bool.and_eq_true, decide_eq_true_eq] at h
  omega

/-! ## Registry fetch scheduling (EurekaClient.fetchRegistry and friends) -/

/-- The client state the fetch logic touches: the `hasFullRegistry` flag and
the cache. -/
structure ClientState where
  hasFullRegistry : Bool
  cache : Cache
  deriving DecidableEq, Repr

/-- Which kind of fetch fetchRegistry dispatched. -/
inductive FetchKind where
  | full
  | delta
  deriving DecidableEq, Repr

/-- The outcome of one full-registry request: transport error, non-200
status, an exception thrown while parsing or transforming the body, or a
parsed registry handed to transformRegistry without a throw. -/
inductive FullOutcome where
  | transportError
  | badStatus
  | thrown
  | parsed (reg : Option Registry)
  deriving DecidableEq, Repr

/-- The outcome of one delta request. -/
inductive DeltaOutcome where
  | transportError
  | badStatus
  | thrown
  | parsed (appDelta : OneOrMany AppEntry)
  deriving DecidableEq, Repr

/-- EurekaClient.fetchFullRegistry: only a 200 response whose body transforms
without throwing replaces the cache and sets `hasFullRegistry = true`; every
other outcome reaches the callback with the state untouched. -/
def fetchFullRegistry (filterUp : Bool) (s : ClientState) (o : FullOutcome) : ClientState :=
  match o with
  | .parsed reg => { hasFullRegistry := true, cache := transformRegistry filterUp reg s.cache }
  | _ => s

/-- EurekaClient.fetchDelta: a parsed delta is applied to the cache in place;
the `hasFullRegistry` flag is never written. -/
def fetchDelta (filterUp : Bool) (s : ClientState) (o : DeltaOutcome) : ClientState :=
  match o with
  | .parsed d => { s with cache := handleDelta filterUp s.cache d }
  | _ => s

/-- EurekaClient.fetchRegistry: delta when `shouldUseDelta && hasFullRegistry`,
else full. Returns which fetch ran together with the new state. -/
def fetchRegistry (shouldUseDelta filterUp : Bool) (s : ClientState)
    (fullO : FullOutcome) (deltaO : DeltaOutcome) : FetchKind × ClientState :=
  if shouldUseDelta && s.hasFullRegistry then (.delta, fetchDelta filterUp s deltaO)
  else (.full, fetchFullRegistry filterUp s fullO)

/-- A sequence of fetchRegistry invocations (timer ticks), each with the
outcome the network would hand whichever request is made: final state and
the kinds dispatched, in order. -/
def runFetches (shouldUseDelta filterUp : Bool) (s : ClientState)
    (events : List (FullOutcome × DeltaOutcome)) : ClientState × List FetchKind :=
  match events with
  | [] => (s, [])
  | (fo, dO) :: rest =>
    let r := fetchRegistry shouldUseDelta filterUp s fo dO
    let rr := runFetches shouldUseDelta filterUp r.2 rest
    (rr.1, r.1 :: rr.2)

/-! ## Derived views used to state properties -/

/-- The URL list a zone contributes (`[]` when the zone is unconfigured). -/
def zoneUrlsOf (su : List (String × List String)) (z : String) : List String :=
  (lookupKey su z).getD []

/-- The zones of the ordered zone list that `serviceUrls` configures. -/
def presentZones (su : List (String × List String)) (zones : List String) : List String :=
  zones.filter (fun z => (lookupKey su z).isSome)

/-- The instance list of one wire-format app entry. -/
def appEntryInstances (a : AppEntry) : List Inst :=
  arrayOrObj a.inst

/-- All instances of a snapshot's app entries that pass the UP filter, in
snapshot order. -/
def validInstances (filterUp : Bool) (apps : List AppEntry) : List Inst :=
  ((apps.map appEntryInstances).flatten).filter (validateInstance filterUp)

/-! ## Concrete inputs used by witnesses and counterexamples -/

/-- Cached instance of app `app` under vip `w` (hostA:1). -/
def instA : Inst := ⟨"hostA", 1, "app", "w", "UP", "ADDED"⟩

/-- Cached instance of app `app` under vip `v` (hostB:2). -/
def instB : Inst := ⟨"hostB", 2, "app", "v", "UP", "ADDED"⟩

/-- A MODIFIED delta instance matching `instB` by (hostName, port), DOWN. -/
def instBMod : Inst := ⟨"hostB", 2, "app", "v", "DOWN", "MODIFIED"⟩

/-- A DELETED delta instance matching `instB` by (hostName, port). -/
def instBDel : Inst := ⟨"hostB", 2, "app", "v", "UP", "DELETED"⟩

/-- A DELETED delta instance matching nothing in `cacheAB`. -/
def instAbsent : Inst := ⟨"hostC", 3, "app", "v", "UP", "DELETED"⟩

/-- A cache whose app slot holds `[instA, instB]`: the matching entry for
hostB:2 sits at index 1, not at the head. -/
def cacheAB : Cache := ⟨[("APP", [instA, instB])], [("w", [instA]), ("v", [instB])]⟩

/-- Zone config with one zone `z1` matching the instance's own zone. -/
def cfgDup : ResolverConfig :=
  ⟨"h", 80, "/p", false, some [("z1", ["u"])], true, some "r", some [("r", ["z1"])], some "z1"⟩

/-- A DOWN instance for a one-app snapshot. -/
def downInst : Inst := ⟨"h1", 1, "app1", "v1", "DOWN", ""⟩

/-- An UP instance of a second app. -/
def upInst : Inst := ⟨"h2", 2, "app2", "v2,v3", "UP", ""⟩

/-- A two-instance app entry (one UP, one DOWN). -/
def mixedEntry : AppEntry := ⟨.many [upInst, downInst]⟩

/-- A resolver that always yields the same URL. -/
def resolveOkA : Nat → Except String String := fun _ => .ok "http://eureka-a/"

/-- A middleware that hands its continuation a non-object. -/
def mwNonObject : ReqOpts → MWResult := fun _ => .nonObject

/-- An HTTP world that would answer 200 to every attempt. -/
def httpOk200 : Nat → HttpOutcome := fun _ => .response 200 "ok"

/-- DNS config for the resolution witnesses. -/
def dnsCfgW : DnsConfig := ⟨"region", "example.com", false, none⟩

/-- A DNS world whose region record lists one zone whose lookup fails. -/
def lookupFail : String → Except String (List (List String)) := fun name =>
  if name == "txt.region.example.com" then .ok [["z1"]]
  else .error "getaddrinfo ENOTFOUND"

/-! ## Supporting lemmas -/

theorem getSlot_setSlot_self (m : Slots) (k : String) (v : List Inst) :
    getSlot (setSlot m k v) k = some v := by
  induction m with
  | nil => simp [getSlot, setSlot]
  | cons p rest ih =>
    obtain ⟨k', v'⟩ := p
    by_cases h : k' = k
    · simp [getSlot, setSlot, h]
    · simp [getSlot, setSlot, h, ih]

theorem getSlot_setSlot_ne (m : Slots) (k k' : String) (v : List Inst) (h : k' ≠ k) :
    getSlot (setSlot m k v) k' = getSlot m k' := by
  induction m with
  | nil => simp [getSlot, setSlot, Ne.symm h]
  | cons p rest ih =>
    obtain ⟨k₀, v₀⟩ := p
    by_cases h₀ : k₀ = k
    · subst h₀
      simp [getSlot, setSlot, Ne.symm h]
    · by_cases h₁ : k₀ = k'
      · simp [getSlot, setSlot, h₀, h₁, h]
      · simp [getSlot, setSlot, h₀, h₁, ih]

theorem mem_slotKeys_iff_getSlot (m : Slots) (k : String) :
    k ∈ slotKeys m ↔ (getSlot m k).isSome = true := by
  induction m with
  | nil => simp [slotKeys, getSlot]
  | cons p rest ih =>
    obtain ⟨k', v'⟩ := p
    by_cases h : k' = k
    · simp [slotKeys, getSlot, h]
    · simp only [slotKeys, List.map_cons, List.mem_cons, getSlot, beq_iff_eq, h, if_false]
      constructor
      · rintro (rfl | hm)
        · exact absurd rfl h
        · exact ih.mp hm
      · intro hs
        exact Or.inr (ih.mpr hs)

theorem mem_slotKeys_setSlot (m : Slots) (k k' : String) (v : List Inst) :
    k' ∈ slotKeys (setSlot m k v) ↔ (k' ∈ slotKeys m ∨ k' = k) := by
  by_cases h : k' = k
  · subst h
    simp [mem_slotKeys_iff_getSlot, getSlot_setSlot_self]
  · simp [mem_slotKeys_iff_getSlot, getSlot_setSlot_ne m k k' v h, h]

theorem findInstance_self (i : Inst) : findInstance i i = true := by
  simp [findInstance]

theorem findIdx_append_self_isSome (l : List Inst) (i : Inst) :
    (findIdx (l ++ [i]) i).isSome = true := by
  induction l with
  | nil => simp [findIdx, List.findIdx?_cons, findInstance_self]
  | cons a rest ih =>
    simp only [findIdx, List.cons_append, List.findIdx?_cons]
    by_cases h : findInstance i a
    · simp [h]
    · simpa [h, findIdx] using ih

theorem slotFindIdx_isSome_getSlot (m : Slots) (k : String) (i : Inst)
    (h : (slotFindIdx m k i).isSome = true) : (getSlot m k).isSome = true := by
  unfold slotFindIdx at h
  cases hg : getSlot m k with
  | none => rw [hg] at h; simp at h
  | some l => simp

/-! ## Claims -/

/-- C10: transformRegistry called with a falsy registry, or with a registry
whose `applications.application` field is absent, leaves the existing cache
(both indices) completely unchanged. -/
theorem transformRegistry_degenerate_noop (filterUp : Bool) (c : Cache) :
    transformRegistry filterUp none c = c ∧
    transformRegistry filterUp (some ⟨none⟩) c = c :=
  ⟨rfl, rfl⟩

/-- C6: resolveEurekaUrl returns the ring head unchanged when
`retryAttempt = 0`; with `retryAttempt > 0` on a multi-entry ring it first
moves the head to the tail and returns the new head; the rotation is sticky:
after a retry call on `[a, b]` returns `b`, a later non-retry call on the
rotated ring still returns `b`. -/
theorem resolveEurekaUrl_rotation :
    (∀ ring : List String, resolveEurekaUrl ring 0 = (ring, ring.head?)) ∧
    (∀ (x y : String) (rest : List String) (r : Nat), 0 < r →
        resolveEurekaUrl (x :: y :: rest) r = (y :: (rest ++ [x]), some y)) ∧
    (∀ a b : String, resolveEurekaUrl [a, b] 0 = ([a, b], some a) ∧
        resolveEurekaUrl [a, b] 1 = ([b, a], some b) ∧
        resolveEurekaUrl [b, a] 0 = ([b, a], some b)) := by
  refine ⟨fun ring => by simp [resolveEurekaUrl], fun x y rest r hr => ?_, fun a b => ?_⟩
  · simp [resolveEurekaUrl, hr]
  · simp [resolveEurekaUrl]

/-- Witness for C6: the two-server scenario evaluated at urlA/urlB. -/
theorem resolveEurekaUrl_rotation_witness :
    0 < 1 ∧ resolveEurekaUrl ["urlA", "urlB"] 1 = (["urlB", "urlA"], some "urlB") :=
  ⟨by decide, resolveEurekaUrl_rotation.2.1 "urlA" "urlB" [] 1 (by decide)⟩

/-- C1 (bug evaluation): a MODIFIED delta for hostB:2 against a cache whose
app slot is `[instA, instB]` (match at index 1). The vip slot is replaced in
place as claimed — even though the new status is DOWN — but the app slot
comes out `[instBMod, instB]`: the source passes `cache.vip[instance.vipAddress]`
(an array) as the splice index, which coerces to 0, so the head `instA` is
overwritten and the stale `instB` survives, where the claim requires
`[instA, instBMod]`. -/
theorem modifyInstance_app_splices_head :
    (modifyInstance true cacheAB instBMod).vip = [("w", [instA]), ("v", [instBMod])] ∧
    (modifyInstance true cacheAB instBMod).app = [("APP", [instBMod, instB])] ∧
    (modifyInstance true cacheAB instBMod).app ≠ [("APP", [instA, instBMod])] := by
  refine ⟨by decide, by decide, by decide⟩

/-- C5 (bug evaluation): a DELETED delta for hostB:2 against the same cache.
The vip slot drops the match as claimed, and deleting an absent instance
leaves the cache unchanged, but the app slot comes out `[instB]`: the splice
index again coerces to 0, so the head `instA` is removed and the stale
`instB` survives, where the claim requires `[instA]`. -/
theorem deleteInstance_app_removes_head :
    (deleteInstance cacheAB instBDel).vip = [("w", [instA]), ("v", [])] ∧
    (deleteInstance cacheAB instBDel).app = [("APP", [instB])] ∧
    (deleteInstance cacheAB instBDel).app ≠ [("APP", [instA])] ∧
    deleteInstance cacheAB instAbsent = cacheAB := by
  refine ⟨by decide, by decide, by decide, by decide⟩

/-- Counterexample for C3: with zone affinity on and the instance's zone
matching the only configured zone, that zone's URL appears twice in the ring
(the source both unshifts and pushes it), not exactly once as claimed. -/
theorem buildServiceUrls_duplicates_same_zone :
    buildServiceUrls cfgDup = ["u", "u"] ∧ (buildServiceUrls cfgDup).count "u" = 2 := by
  refine ⟨by decide, by decide⟩

/-- Counterexample for C4: a snapshot with one app entry whose only instance
is DOWN (filtering enabled) yields an app index with zero keys, not one key
per app entry as claimed. -/
theorem transformRegistry_app_keys_undercount :
    (transformRegistry true (some ⟨some (.many [⟨.one downInst⟩])⟩) cacheAB).app = [] ∧
    [(⟨.one downInst⟩ : AppEntry)].length = 1 := by
  refine ⟨by decide, by decide⟩

theorem fetchDelta_hasFullRegistry (f : Bool) (s : ClientState) (o : DeltaOutcome) :
    (fetchDelta f s o).hasFullRegistry = s.hasFullRegistry := by
  cases o <;> rfl

/-- C7: a full fetch whose body transforms successfully sets
`hasFullRegistry`, and from any state with the flag set, every later
fetchRegistry invocation (whatever the network outcomes) dispatches a delta
fetch and never a full one, the flag staying set: the full→delta switch is
one-way and sticky when `shouldUseDelta` is enabled. -/
theorem fetchRegistry_delta_sticky :
    (∀ (f : Bool) (s : ClientState) (reg : Option Registry),
        (fetchFullRegistry f s (.parsed reg)).hasFullRegistry = true) ∧
    (∀ (f : Bool) (events : List (FullOutcome × DeltaOutcome)) (s : ClientState),
        s.hasFullRegistry = true →
        (runFetches true f s events).1.hasFullRegistry = true ∧
        (runFetches true f s events).2 = events.map (fun _ => FetchKind.delta)) := by
  constructor
  · intro f s reg
    rfl
  · intro f events
    induction events with
    | nil =>
      intro s hs
      exact ⟨hs, rfl⟩
    | cons ev rest ih =>
      intro s hs
      obtain ⟨fo, dO⟩ := ev
      have hstep : fetchRegistry true f s fo dO = (.delta, fetchDelta f s dO) := by
        simp [fetchRegistry, hs]
      have hflag : (fetchDelta f s dO).hasFullRegistry = true := by
        rw [fetchDelta_hasFullRegistry]
        exact hs
      have hrest := ih (fetchDelta f s dO) hflag
      refine ⟨?_, ?_⟩
      · simpa [runFetches, hstep] using hrest.1
      · simpa [runFetches, hstep] using hrest.2

/-- Witness for C7: from a state with the flag set, two ticks with failing
and succeeding outcomes both dispatch delta fetches. -/
theorem fetchRegistry_delta_sticky_witness :
    (⟨true, emptyCache⟩ : ClientState).hasFullRegistry = true ∧
    (runFetches true true ⟨true, emptyCache⟩
        [(.transportError, .badStatus), (.parsed none, .parsed (.many []))]).1.hasFullRegistry
      = true ∧
    (runFetches true true ⟨true, emptyCache⟩
        [(.transportError, .badStatus), (.parsed none, .parsed (.many []))]).2
      = [FetchKind.delta, FetchKind.delta] := by
  refine ⟨rfl, ?_, ?_⟩
  · exact (fetchRegistry_delta_sticky.2 true
      [(.transportError, .badStatus), (.parsed none, .parsed (.many []))]
      ⟨true, emptyCache⟩ rfl).1
  · exact (fetchRegistry_delta_sticky.2 true
      [(.transportError, .badStatus), (.parsed none, .parsed (.many []))]
      ⟨true, emptyCache⟩ rfl).2

/-- Counterexample for C2: with retries configured (`maxRetries = 3`,
`retryAttempt = 0`) a middleware that yields a non-object does not make the
request "fail with an error": the final handler enters the retry branch and
throws a TypeError reading `prefixUrl` of the undefined request options, so
the caller's callback never sees the middleware error (and no retry and no
HTTP call happen either — `httpCalls = 0`, `attempts = 1`). -/
theorem eurekaRequest_middleware_error_not_callbacked :
    eurekaRequest 3 resolveOkA mwNonObject httpOk200 0 = ⟨.typeError, 0, 1⟩ ∧
    (eurekaRequest 3 resolveOkA mwNonObject httpOk200 0).outcome ≠
      .callback (some "requestMiddleware did not return an object") none none := by
  constructor
  · simp [eurekaRequest.eq_def, resolveOkA, mwNonObject, responseInvalid]
  · simp [eurekaRequest.eq_def, resolveOkA, mwNonObject, responseInvalid]

/-- C2 (amended): when the middleware hands its continuation a non-object,
the attempt performs no HTTP call and no retry ever runs; with no retries
remaining the callback immediately receives the middleware error, but with
retries remaining the final handler instead throws a TypeError (reading
`requestOpts.prefixUrl` of `undefined`) before scheduling the retry, so the
callback is never invoked. -/
theorem eurekaRequest_middleware_error_behavior (maxRetries retryAttempt : Nat)
    (resolveUrl : Nat → Except String String) (middleware : ReqOpts → MWResult)
    (http : Nat → HttpOutcome) (url : String)
    (hres : resolveUrl retryAttempt = .ok url)
    (hmw : middleware ⟨url⟩ = .nonObject) :
    eurekaRequest maxRetries resolveUrl middleware http retryAttempt =
      ⟨if retryAttempt < maxRetries then ReqOutcome.typeError
        else .callback (some "requestMiddleware did not return an object") none none,
       0, 1⟩ := by
  by_cases hlt : retryAttempt < maxRetries
  · rw [eurekaRequest.eq_def]
    simp [hres, hmw, responseInvalid, hlt]
  · rw [eurekaRequest.eq_def]
    simp [hres, hmw, responseInvalid, hlt]

/-- Witness for C2's amended theorem at a concrete configuration. -/
theorem eurekaRequest_middleware_error_behavior_witness :
    resolveOkA 0 = .ok "http://eureka-a/" ∧
    mwNonObject ⟨"http://eureka-a/"⟩ = .nonObject ∧
    eurekaRequest 3 resolveOkA mwNonObject httpOk200 0 =
      ⟨if 0 < 3 then ReqOutcome.typeError
        else .callback (some "requestMiddleware did not return an object") none none,
       0, 1⟩ :=
  ⟨rfl, rfl,
    eurekaRequest_middleware_error_behavior 3 0 resolveOkA mwNonObject httpOk200
      "http://eureka-a/" rfl rfl⟩

theorem buildServiceUrls_loop (cfg : ResolverConfig) (su : List (String × List String))
    (zones : List String) (front back : List String) :
    zones.foldl (fun urls zone =>
        match lookupKey su zone with
        | some zoneUrls =>
            let urls := if sameZone cfg zone then zoneUrls ++ urls else urls
            urls ++ zoneUrls
        | none => urls) (front ++ back) =
      ((((presentZones su zones).filter (sameZone cfg)).reverse.map (zoneUrlsOf su)).flatten
          ++ front)
        ++ (back ++ ((presentZones su zones).map (zoneUrlsOf su)).flatten) := by
  induction zones generalizing front back with
  | nil => simp [presentZones]
  | cons z rest ih =>
    cases hz : lookupKey su z with
    | none =>
      simp only [List.foldl_cons, hz]
      rw [ih front back]
      simp [presentZones, List.filter_cons, hz]
    | some zu =>
      cases hsz : sameZone cfg z with
      | true =>
        simp only [List.foldl_cons, hz, hsz, if_true]
        have hre : (zu ++ (front ++ back)) ++ zu = (zu ++ front) ++ (back ++ zu) := by
          simp [List.append_assoc]
        rw [hre, ih (zu ++ front) (back ++ zu)]
        simp [presentZones, List.filter_cons, hz, hsz, zoneUrlsOf, List.append_assoc]
      | false =>
        simp only [List.foldl_cons, hz, hsz, Bool.false_eq_true, if_false]
        have hre : (front ++ back) ++ zu = front ++ (back ++ zu) := by
          simp [List.append_assoc]
        rw [hre, ih front (back ++ zu)]
        simp [presentZones, List.filter_cons, hz, hsz, zoneUrlsOf, List.append_assoc]

/-- C3 (amended): with a serviceUrls map configured, the ring visits the
ordered zone list in order and every configured zone's URLs are appended to
the back; a zone matching the instance's own availability zone under
preferSameZone has its URLs additionally prepended to the front (the source
unshifts without an `else`, then pushes unconditionally). So the ring equals
front-part ++ back-part, where the back-part is every configured zone's URLs
in zone order and the front-part is the matching zones' URLs (in reverse
matching order): matching-zone URLs occur twice, all others exactly once;
when nothing is configured the single default URL is used. -/
theorem buildServiceUrls_ring_shape (cfg : ResolverConfig)
    (su : List (String × List String)) (h : cfg.serviceUrls = some su) :
    buildServiceUrls cfg =
      (let zones := presentZones su (getAvailabilityZones cfg)
       let front := ((zones.filter (sameZone cfg)).reverse.map (zoneUrlsOf su)).flatten
       let back := (zones.map (zoneUrlsOf su)).flatten
       if (front ++ back).isEmpty then [defaultUrl cfg] else front ++ back) := by
  have hloop := buildServiceUrls_loop cfg su (getAvailabilityZones cfg) [] []
  simp only [List.nil_append, List.append_nil] at hloop
  simp only [buildServiceUrls, h]
  rw [hloop]

/-- Witness for C3's amended theorem at the duplicate-producing config. -/
theorem buildServiceUrls_ring_shape_witness :
    cfgDup.serviceUrls = some [("z1", ["u"])] ∧
    buildServiceUrls cfgDup = ["u", "u"] :=
  ⟨rfl, buildServiceUrls_ring_shape cfgDup [("z1", ["u"])] rfl⟩

theorem findSome?_isSome_of_mem {α β : Type} (l : List α) (f : α → Option β) (z : α)
    (hz : z ∈ l) (e : β) (hf : f z = some e) : ∃ e', l.findSome? f = some e' := by
  induction l with
  | nil => cases hz
  | cons a rest ih =>
    cases hm : f a with
    | some b => exact ⟨b, by simp [List.findSome?_cons, hm]⟩
    | none =>
      rcases List.mem_cons.mp hz with rfl | hz'
      · rw [hm] at hf
        cases hf
      · obtain ⟨e', he'⟩ := ih hz'
        exact ⟨e', by simp [List.findSome?_cons, hm, he']⟩

theorem findSome?_eq_none_of_all {α β : Type} (l : List α) (f : α → Option β)
    (hall : ∀ z ∈ l, f z = none) : l.findSome? f = none := by
  induction l with
  | nil => rfl
  | cons a rest ih =>
    have ha := hall a (List.mem_cons_self a rest)
    simp [List.findSome?_cons, ha, ih fun z hz => hall z (List.mem_cons_of_mem a hz)]

/-- C9: once the region record resolves, (a) if any single per-zone TXT
lookup fails, the whole resolution fails with an error — no partial host
list; and (b) if every zone lookup succeeds but contributes no hosts, the
resolution also fails with an error rather than returning an empty list
(`shuffle [] = []` records that lodash shuffle permutes, so keeps `[]`). -/
theorem resolveClusterHosts_failfast_and_empty (shuffle : List String → List String)
    (cfg : DnsConfig) (lookupTxt : String → Except String (List (List String)))
    (addresses : List (List String))
    (htop : lookupTxt ("txt." ++ cfg.ec2Region ++ "." ++ cfg.host) = .ok addresses) :
    ((∃ z ∈ dedupKeys addresses.flatten,
        ∃ e, resolveZoneHosts lookupTxt ("txt." ++ z) = .error e) →
      ∃ e', resolveClusterHosts shuffle cfg lookupTxt = .error e') ∧
    (shuffle [] = [] →
      (∀ z ∈ dedupKeys addresses.flatten,
        resolveZoneHosts lookupTxt ("txt." ++ z) = .ok []) →
      ∃ e', resolveClusterHosts shuffle cfg lookupTxt = .error e') := by
  constructor
  · rintro ⟨z, hz, e, he⟩
    obtain ⟨e', he'⟩ := findSome?_isSome_of_mem (dedupKeys addresses.flatten)
      (fun z => match resolveZoneHosts lookupTxt ("txt." ++ z) with
        | .error e => some e
        | .ok _ => none) z hz e (by simp [he])
    refine ⟨e', ?_⟩
    simp only [resolveClusterHosts, htop]
    rw [he']
  · intro hsh hall
    have hnone : (dedupKeys addresses.flatten).findSome?
        (fun z => match resolveZoneHosts lookupTxt ("txt." ++ z) with
          | .error e => some e
          | .ok _ => none) = none := by
      refine findSome?_eq_none_of_all _ _ fun z hz => ?_
      rw [hall z hz]
    have hres : ∀ q : String × List String → Bool,
        ((((dedupKeys addresses.flatten).map (fun z =>
            (z, (resolveZoneHosts lookupTxt ("txt." ++ z)).toOption.getD []))).filter q).map
              Prod.snd).flatten = ([] : List String) := by
      intro q
      rw [List.flatten_eq_nil_iff]
      intro x hx
      obtain ⟨p, hp, rfl⟩ := List.mem_map.mp hx
      have hpmem := List.mem_of_mem_filter hp
      obtain ⟨z, hzmem, rfl⟩ := List.mem_map.mp hpmem
      simp only
      rw [hall z hzmem]
      rfl
    simp only [resolveClusterHosts, htop, hnone, hres, hsh, List.nil_append]
    exact ⟨_, rfl⟩

/-- Witness for C9: a region record listing one zone whose TXT lookup fails
makes the whole resolution fail. -/
theorem resolveClusterHosts_failfast_witness :
    lookupFail "txt.region.example.com" = .ok [["z1"]] ∧
    "z1" ∈ dedupKeys ([["z1"]] : List (List String)).flatten ∧
    (∃ e, resolveZoneHosts lookupFail "txt.z1" = .error e) ∧
    (∃ e', resolveClusterHosts id dnsCfgW lookupFail = .error e') := by
  refine ⟨rfl, by decide, ⟨_, rfl⟩, ?_⟩
  exact (resolveClusterHosts_failfast_and_empty id dnsCfgW lookupFail [["z1"]] rfl).1
    ⟨"z1", by decide, _, rfl⟩

theorem isNone_eq_false_of_isSome {α : Type} (o : Option α) (h : o.isSome = true) :
    o.isNone = false := by
  cases o with
  | none => simp at h
  | some a => rfl

theorem addVipToken_app (c : Cache) (i : Inst) (v : String) :
    (addVipToken c i v).app = c.app := by
  unfold addVipToken
  split <;> rfl

theorem foldl_addVipToken_app (vips : List String) (c : Cache) (i : Inst) :
    ((vips.foldl (fun c v => addVipToken c i v) c)).app = c.app := by
  induction vips generalizing c with
  | nil => rfl
  | cons v rest ih => rw [List.foldl_cons, ih, addVipToken_app]

theorem addVipToken_contains_self (c : Cache) (i : Inst) (v : String) :
    (slotFindIdx (addVipToken c i v).vip v i).isSome = true := by
  unfold addVipToken
  split
  · assumption
  · simp only [slotFindIdx, getSlot_setSlot_self]
    exact findIdx_append_self_isSome _ i

theorem addVipToken_preserves_contains (c : Cache) (i : Inst) (v v' : String)
    (h : (slotFindIdx c.vip v i).isSome = true) :
    (slotFindIdx (addVipToken c i v').vip v i).isSome = true := by
  by_cases hv : v = v'
  · subst hv
    exact addVipToken_contains_self c i v
  · unfold addVipToken
    split
    · exact h
    · simp only [slotFindIdx]
      rw [getSlot_setSlot_ne c.vip v' v _ hv]
      exact h

theorem foldl_addVipToken_preserves (vips : List String) (c : Cache) (i : Inst) (v : String)
    (h : (slotFindIdx c.vip v i).isSome = true) :
    (slotFindIdx ((vips.foldl (fun c v => addVipToken c i v) c)).vip v i).isSome = true := by
  induction vips generalizing c with
  | nil => exact h
  | cons v' rest ih => exact ih _ (addVipToken_preserves_contains c i v v' h)

theorem foldl_addVipToken_contains (vips : List String) (c : Cache) (i : Inst) :
    ∀ v ∈ vips,
      (slotFindIdx ((vips.foldl (fun c v => addVipToken c i v) c)).vip v i).isSome = true := by
  induction vips generalizing c with
  | nil => intro v hv; cases hv
  | cons v' rest ih =>
    intro v hv
    rcases List.mem_cons.mp hv with rfl | hv'
    · exact foldl_addVipToken_preserves rest _ i v (addVipToken_contains_self c i v)
    · exact ih _ v hv'

theorem addVipToken_noop_of_contains (c : Cache) (i : Inst) (v : String)
    (h : (slotFindIdx c.vip v i).isSome = true) : addVipToken c i v = c := by
  unfold addVipToken
  rw [if_pos h]

theorem foldl_addVipToken_noop (vips : List String) (c : Cache) (i : Inst)
    (h : ∀ v ∈ vips, (slotFindIdx c.vip v i).isSome = true) :
    vips.foldl (fun c v => addVipToken c i v) c = c := by
  induction vips with
  | nil => rfl
  | cons v rest ih =>
    rw [List.foldl_cons, addVipToken_noop_of_contains c i v (h v (List.mem_cons_self v rest))]
    exact ih fun v' hv' => h v' (List.mem_cons_of_mem _ hv')

theorem addAppSlot_vip (c : Cache) (i : Inst) : (addAppSlot c i).vip = c.vip := by
  simp only [addAppSlot]
  split <;> split <;> rfl

theorem addAppSlot_contains (c : Cache) (i : Inst) :
    (slotFindIdx (addAppSlot c i).app (jsToUpper i.app) i).isSome = true := by
  simp only [addAppSlot]
  split
  · split
    · assumption
    · simp only [slotFindIdx, getSlot_setSlot_self]
      exact findIdx_append_self_isSome _ i
  · split
    · assumption
    · simp only [slotFindIdx, getSlot_setSlot_self]
      exact findIdx_append_self_isSome _ i

theorem addAppSlot_noop_of_contains (c : Cache) (i : Inst)
    (h : (slotFindIdx c.app (jsToUpper i.app) i).isSome = true) : addAppSlot c i = c := by
  have hgs : (getSlot c.app (jsToUpper i.app)).isNone = false :=
    isNone_eq_false_of_isSome _ (slotFindIdx_isSome_getSlot _ _ _ h)
  simp only [addAppSlot, hgs, Bool.false_eq_true, if_false]
  rw [if_pos h]

/-- C8: addInstance is idempotent — applying an ADDED delta for an instance
twice (matched by hostName and port.$) produces exactly the cache obtained by
applying it once, both at the addInstance level and through handleDelta on a
one-instance ADDED delta payload. -/
theorem addInstance_idempotent :
    (∀ (f : Bool) (c : Cache) (i : Inst),
        addInstance f (addInstance f c i) i = addInstance f c i) ∧
    (∀ (f : Bool) (c : Cache) (hn : String) (p : Nat) (a v s : String),
        handleDelta f (handleDelta f c (.one ⟨.one ⟨hn, p, a, v, s, "ADDED"⟩⟩))
            (.one ⟨.one ⟨hn, p, a, v, s, "ADDED"⟩⟩) =
          handleDelta f c (.one ⟨.one ⟨hn, p, a, v, s, "ADDED"⟩⟩)) := by
  have main : ∀ (f : Bool) (c : Cache) (i : Inst),
      addInstance f (addInstance f c i) i = addInstance f c i := by
    intro f c i
    cases hv : validateInstance f i with
    | false => simp [addInstance, hv]
    | true =>
      have hnv : (!validateInstance f i) = false := by rw [hv]; rfl
      have hvips : ∀ v ∈ splitVipAddress i.vipAddress,
          (slotFindIdx (addInstance f c i).vip v i).isSome = true := by
        intro v hvmem
        have : (addInstance f c i).vip =
            ((splitVipAddress i.vipAddress).foldl (fun c v => addVipToken c i v) c).vip := by
          unfold addInstance
          rw [hnv]
          simp only [Bool.false_eq_true, if_false, addAppSlot_vip]
        rw [this]
        exact foldl_addVipToken_contains _ c i v hvmem
      have happ : (slotFindIdx (addInstance f c i).app (jsToUpper i.app) i).isSome = true := by
        have : addInstance f c i =
            addAppSlot ((splitVipAddress i.vipAddress).foldl (fun c v => addVipToken c i v) c) i := by
          unfold addInstance
          rw [hnv]
          simp only [Bool.false_eq_true, if_false]
        rw [this]
        exact addAppSlot_contains _ i
      conv_lhs => rw [addInstance]
      rw [hnv]
      simp only [Bool.false_eq_true, if_false]
      rw [foldl_addVipToken_noop _ _ _ hvips]
      exact addAppSlot_noop_of_contains _ i happ
  refine ⟨main, fun f c hn p a v s => ?_⟩
  have hd : ∀ c' : Cache, handleDelta f c' (.one ⟨.one ⟨hn, p, a, v, s, "ADDED"⟩⟩) =
      addInstance f c' ⟨hn, p, a, v, s, "ADDED"⟩ := fun c' => rfl
  simp only [hd]
  exact main f c ⟨hn, p, a, v, s, "ADDED"⟩

theorem isSome_of_isNone_eq_false {α : Type} (o : Option α) (h : o.isNone = false) :
    o.isSome = true := by
  cases o with
  | none => simp [Option.isNone] at h
  | some a => rfl

theorem addVipToken_vip_keys (c : Cache) (i : Inst) (v k : String) :
    k ∈ slotKeys (addVipToken c i v).vip ↔ (k ∈ slotKeys c.vip ∨ k = v) := by
  unfold addVipToken
  split
  · rename_i hcon
    have hv : v ∈ slotKeys c.vip :=
      (mem_slotKeys_iff_getSlot _ _).mpr (slotFindIdx_isSome_getSlot _ _ _ hcon)
    constructor
    · exact Or.inl
    · rintro (hk | rfl)
      · exact hk
      · exact hv
  · exact mem_slotKeys_setSlot c.vip v k _

theorem foldl_addVipToken_vip_keys (vips : List String) (c : Cache) (i : Inst) (k : String) :
    k ∈ slotKeys ((vips.foldl (fun c v => addVipToken c i v) c)).vip ↔
      (k ∈ slotKeys c.vip ∨ k ∈ vips) := by
  induction vips generalizing c with
  | nil => simp
  | cons v rest ih =>
    rw [List.foldl_cons, ih, addVipToken_vip_keys]
    constructor
    · rintro ((hk | rfl) | hk)
      · exact Or.inl hk
      · exact Or.inr (List.mem_cons_self _ _)
      · exact Or.inr (List.mem_cons_of_mem _ hk)
    · rintro (hk | hk)
      · exact Or.inl (Or.inl hk)
      · rcases List.mem_cons.mp hk with rfl | hk'
        · exact Or.inl (Or.inr rfl)
        · exact Or.inr hk'

theorem addAppSlot_app_keys (c : Cache) (i : Inst) (k : String) :
    k ∈ slotKeys (addAppSlot c i).app ↔ (k ∈ slotKeys c.app ∨ k = jsToUpper i.app) := by
  simp only [addAppSlot]
  split
  · split
    · exact mem_slotKeys_setSlot c.app (jsToUpper i.app) k _
    · rw [mem_slotKeys_setSlot, mem_slotKeys_setSlot]
      tauto
  · rename_i hnone
    have hmem : jsToUpper i.app ∈ slotKeys c.app :=
      (mem_slotKeys_iff_getSlot _ _).mpr (Option.isSome_iff_ne_none.mpr (by simpa using hnone))
    split
    · constructor
      · exact Or.inl
      · rintro (hk | rfl)
        · exact hk
        · exact hmem
    · exact mem_slotKeys_setSlot c.app (jsToUpper i.app) k _

theorem addInstance_not_valid (f : Bool) (c : Cache) (i : Inst)
    (hv : validateInstance f i = false) : addInstance f c i = c := by
  simp [addInstance, hv]

theorem addInstance_app_keys (f : Bool) (c : Cache) (i : Inst)
    (hv : validateInstance f i = true) (k : String) :
    k ∈ slotKeys (addInstance f c i).app ↔ (k ∈ slotKeys c.app ∨ k = jsToUpper i.app) := by
  have hnv : (!validateInstance f i) = false := by rw [hv]; rfl
  simp only [addInstance, hnv, Bool.false_eq_true, if_false]
  rw [addAppSlot_app_keys, foldl_addVipToken_app]

theorem addInstance_vip_keys (f : Bool) (c : Cache) (i : Inst)
    (hv : validateInstance f i = true) (k : String) :
    k ∈ slotKeys (addInstance f c i).vip ↔
      (k ∈ slotKeys c.vip ∨ k ∈ splitVipAddress i.vipAddress) := by
  have hnv : (!validateInstance f i) = false := by rw [hv]; rfl
  simp only [addInstance, hnv, Bool.false_eq_true, if_false]
  rw [addAppSlot_vip, foldl_addVipToken_vip_keys]

theorem foldl_addInstance_app_keys (f : Bool) (insts : List Inst)
    (hall : ∀ i ∈ insts, validateInstance f i = true) (c : Cache) (k : String) :
    k ∈ slotKeys ((insts.foldl (addInstance f) c)).app ↔
      (k ∈ slotKeys c.app ∨ ∃ i ∈ insts, jsToUpper i.app = k) := by
  induction insts generalizing c with
  | nil => simp
  | cons j rest ih =>
    have hvj := hall j (List.mem_cons_self _ _)
    rw [List.foldl_cons, ih (fun i hi => hall i (List.mem_cons_of_mem _ hi)),
      addInstance_app_keys f c j hvj k]
    constructor
    · rintro ((hk | rfl) | ⟨i, hi, rfl⟩)
      · exact Or.inl hk
      · exact Or.inr ⟨j, List.mem_cons_self _ _, rfl⟩
      · exact Or.inr ⟨i, List.mem_cons_of_mem _ hi, rfl⟩
    · rintro (hk | ⟨i, hi, rfl⟩)
      · exact Or.inl (Or.inl hk)
      · rcases List.mem_cons.mp hi with rfl | hi'
        · exact Or.inl (Or.inr rfl)
        · exact Or.inr ⟨i, hi', rfl⟩

theorem foldl_addInstance_vip_keys (f : Bool) (insts : List Inst)
    (hall : ∀ i ∈ insts, validateInstance f i = true) (c : Cache) (k : String) :
    k ∈ slotKeys ((insts.foldl (addInstance f) c)).vip ↔
      (k ∈ slotKeys c.vip ∨ ∃ i ∈ insts, k ∈ splitVipAddress i.vipAddress) := by
  induction insts generalizing c with
  | nil => simp
  | cons j rest ih =>
    have hvj := hall j (List.mem_cons_self _ _)
    rw [List.foldl_cons, ih (fun i hi => hall i (List.mem_cons_of_mem _ hi)),
      addInstance_vip_keys f c j hvj k]
    constructor
    · rintro ((hk | hk) | ⟨i, hi, hk⟩)
      · exact Or.inl hk
      · exact Or.inr ⟨j, List.mem_cons_self _ _, hk⟩
      · exact Or.inr ⟨i, List.mem_cons_of_mem _ hi, hk⟩
    · rintro (hk | ⟨i, hi, hk⟩)
      · exact Or.inl (Or.inl hk)
      · rcases List.mem_cons.mp hi with rfl | hi'
        · exact Or.inl (Or.inr hk)
        · exact Or.inr ⟨i, hi', hk⟩

theorem transformApp_eq_foldl (f : Bool) (a : AppEntry) (c : Cache)
    (hwf : a.inst ≠ OneOrMany.many []) :
    transformApp f a c =
      ((appEntryInstances a).filter (validateInstance f)).foldl (addInstance f) c := by
  match ha : a.inst with
  | .one i =>
    cases hv : validateInstance f i with
    | false => simp [transformApp, appEntryInstances, arrayOrObj, ha, hv]
    | true => simp [transformApp, appEntryInstances, arrayOrObj, ha, hv]
  | .many l =>
    have hl : l ≠ [] := fun he => hwf (he ▸ ha)
    have hlen : (l.length != 0) = true := by
      cases l with
      | nil => exact absurd rfl hl
      | cons x xs => rfl
    simp [transformApp, appEntryInstances, arrayOrObj, ha, hlen]

theorem transformRegistry_eq_foldl (f : Bool) (apps : List AppEntry) (c : Cache)
    (hwf : ∀ a ∈ apps, a.inst ≠ OneOrMany.many []) :
    transformRegistry f (some ⟨some (.many apps)⟩) c =
      (validInstances f apps).foldl (addInstance f) emptyCache := by
  have hgen : ∀ (l : List AppEntry) (c0 : Cache), (∀ a ∈ l, a.inst ≠ OneOrMany.many []) →
      l.foldl (fun acc a => transformApp f a acc) c0 =
        (((l.map appEntryInstances).flatten).filter (validateInstance f)).foldl
          (addInstance f) c0 := by
    intro l
    induction l with
    | nil => intro c0 _; rfl
    | cons a rest ih =>
      intro c0 hl
      rw [List.foldl_cons, ih _ (fun x hx => hl x (List.mem_cons_of_mem _ hx)),
        transformApp_eq_foldl f a c0 (hl a (List.mem_cons_self _ _))]
      rw [List.map_cons, List.flatten_cons, List.filter_append, List.foldl_append]
  exact hgen apps emptyCache hwf

/-- C4 (amended): for a snapshot of N app entries (each with a nonempty
instance list), the app-index key set is exactly the set of upper-cased
`app` fields of the instances that pass the UP filter — which is N keys only
when every app entry contributes a passing instance under a distinct name,
and fewer otherwise — while the vip-index key set equals the union of the
comma-split vipAddress tokens of the passing instances, and the produced
cache is built fresh, independent of the previous cache, which it replaces
wholesale. -/
theorem transformRegistry_index_keys (f : Bool) (apps : List AppEntry) (c : Cache)
    (hwf : ∀ a ∈ apps, a.inst ≠ OneOrMany.many []) :
    (∀ k, k ∈ slotKeys ((transformRegistry f (some ⟨some (.many apps)⟩) c).app) ↔
        ∃ i ∈ validInstances f apps, jsToUpper i.app = k) ∧
    (∀ k, k ∈ slotKeys ((transformRegistry f (some ⟨some (.many apps)⟩) c).vip) ↔
        ∃ i ∈ validInstances f apps, k ∈ splitVipAddress i.vipAddress) ∧
    (∀ c', transformRegistry f (some ⟨some (.many apps)⟩) c =
        transformRegistry f (some ⟨some (.many apps)⟩) c') := by
  have hvalid : ∀ i ∈ validInstances f apps, validateInstance f i = true :=
    fun i hi => (List.mem_filter.mp hi).2
  have heq := transformRegistry_eq_foldl f apps c hwf
  refine ⟨fun k => ?_, fun k => ?_, fun c' => rfl⟩
  · rw [heq, foldl_addInstance_app_keys f _ hvalid emptyCache k]
    simp [emptyCache, slotKeys]
  · rw [heq, foldl_addInstance_vip_keys f _ hvalid emptyCache k]
    simp [emptyCache, slotKeys]

/-- Witness for C4's amended theorem on a one-app snapshot with one UP and
one DOWN instance. -/
theorem transformRegistry_index_keys_witness :
    (∀ a ∈ [mixedEntry], a.inst ≠ OneOrMany.many []) ∧
    (("APP2" ∈ slotKeys ((transformRegistry true (some ⟨some (.many [mixedEntry])⟩) cacheAB).app)) ↔
        ∃ i ∈ validInstances true [mixedEntry], jsToUpper i.app = "APP2") ∧
    (("v3" ∈ slotKeys ((transformRegistry true (some ⟨some (.many [mixedEntry])⟩) cacheAB).vip)) ↔
        ∃ i ∈ validInstances true [mixedEntry], "v3" ∈ splitVipAddress i.vipAddress) :=
  ⟨by decide,
    (transformRegistry_index_keys true [mixedEntry] cacheAB (by decide)).1 "APP2",
    (transformRegistry_index_keys true [mixedEntry] cacheAB (by decide)).2.1 "v3"⟩

end EurekaJs
